import Mathlib

/-!
Verification of the export planning and job execution subsystem of the
PawLuxe-Hotel backend.  Timestamps and second counts are modelled as
rationals; database rows and job rows are records; the stateful worker /
API operations are explicit state transformers.  All definitions are
translated from `app/services/export_service.py`,
`app/workers/export_job_worker.py`, `app/api/routes.py` and
`app/db/models.py`.
-/

namespace PawLuxe

/-- Mirror of the `ExportExcerpt` dataclass in `export_service.py`.
Timestamps (`clip_start_ts`, `clip_end_ts`) are rational seconds since an
arbitrary epoch; `offset_start_sec` and `duration_sec` are rational
seconds. -/
structure ExportExcerpt where
  camera_id : String
  segment_id : String
  segment_path : String
  clip_start_ts : ℚ
  clip_end_ts : ℚ
  offset_start_sec : ℚ
  duration_sec : ℚ
deriving DecidableEq, Repr

/-- Ordering by clip start time, the key used by both `sorted(...)` calls
in `export_service.py`. -/
def startLE (a b : ExportExcerpt) : Prop :=
  a.clip_start_ts ≤ b.clip_start_ts

instance : DecidableRel startLE :=
  fun a b => inferInstanceAs (Decidable (a.clip_start_ts ≤ b.clip_start_ts))

instance : IsTotal ExportExcerpt startLE :=
  ⟨fun a b => le_total a.clip_start_ts b.clip_start_ts⟩

instance : IsTrans ExportExcerpt startLE :=
  ⟨fun _ _ _ hab hbc => le_trans hab hbc⟩

/-- The walk of the sorted excerpt list inside `_merge_and_filter_excerpts`:
`current` is the accumulator, the list argument is the remainder of the
sorted input.  `gap` and `minDur` are the already-clamped parameters. -/
def mergeLoop (gap minDur : ℚ) : ExportExcerpt → List ExportExcerpt → List ExportExcerpt
  | current, [] => if minDur ≤ current.duration_sec then [current] else []
  | current, nxt :: rest =>
    if current.segment_path = nxt.segment_path ∧ nxt.clip_start_ts - current.clip_end_ts ≤ gap then
      let newEnd := max current.clip_end_ts nxt.clip_end_ts
      mergeLoop gap minDur
        { current with
            clip_end_ts := newEnd,
            duration_sec := max (newEnd - current.clip_start_ts) 0 } rest
    else
      (if minDur ≤ current.duration_sec then [current] else []) ++ mergeLoop gap minDur nxt rest

/-- Mirror of `_merge_and_filter_excerpts` in `export_service.py` (the
empty input returns early, exactly as `if not excerpts: return []`). -/
def mergeAndFilterExcerpts (excerpts : List ExportExcerpt)
    (merge_gap_seconds min_duration_seconds : ℚ) : List ExportExcerpt :=
  match excerpts with
  | [] => []
  | x :: xs =>
    let gap := max merge_gap_seconds 0
    let minDur := max min_duration_seconds 0
    match List.insertionSort startLE (x :: xs) with
    | [] => []
    | current :: rest => mergeLoop gap minDur current rest

/-- Every excerpt emitted by the merge walk passes the minimum-duration
filter. -/
theorem mergeLoop_minDur (gap minDur : ℚ) :
    ∀ (l : List ExportExcerpt) (c : ExportExcerpt),
      ∀ e ∈ mergeLoop gap minDur c l, minDur ≤ e.duration_sec := by
  intro l
  induction l with
  | nil =>
    intro c e he
    simp only [mergeLoop] at he
    split at he
    · rcases List.mem_singleton.mp he with rfl
      assumption
    · simp at he
  | cons nxt rest ih =>
    intro c e he
    simp only [mergeLoop] at he
    split at he
    · exact ih _ e he
    · rcases List.mem_append.mp he with h | h
      · split at h
        · rcases List.mem_singleton.mp h with rfl
          assumption
        · simp at h
      · exact ih _ e h

/-- The merge walk keeps starts at or above the accumulator's start, and
its output is sorted by start, provided the remainder is sorted and
bounded below by the accumulator. -/
theorem mergeLoop_le_and_sorted (gap minDur : ℚ) :
    ∀ (l : List ExportExcerpt) (c : ExportExcerpt),
      (∀ x ∈ l, c.clip_start_ts ≤ x.clip_start_ts) →
      l.Sorted startLE →
      (∀ e ∈ mergeLoop gap minDur c l, c.clip_start_ts ≤ e.clip_start_ts) ∧
        (mergeLoop gap minDur c l).Sorted startLE := by
  intro l
  induction l with
  | nil =>
    intro c _ _
    constructor
    · intro e he
      simp only [mergeLoop] at he
      split at he
      · rcases List.mem_singleton.mp he with rfl; exact le_refl _
      · simp at he
    · simp only [mergeLoop]
      split
      · exact List.sorted_singleton _
      · exact List.sorted_nil
  | cons nxt rest ih =>
    intro c hlb hs
    have hs' : rest.Sorted startLE := (List.sorted_cons.mp hs).2
    have hnxt_le : ∀ x ∈ rest, nxt.clip_start_ts ≤ x.clip_start_ts :=
      fun x hx => (List.sorted_cons.mp hs).1 x hx
    have hcnxt : c.clip_start_ts ≤ nxt.clip_start_ts := hlb nxt (List.mem_cons_self _ _)
    simp only [mergeLoop]
    split
    · -- merge branch: start unchanged
      have := ih { c with
          clip_end_ts := max c.clip_end_ts nxt.clip_end_ts,
          duration_sec := max (max c.clip_end_ts nxt.clip_end_ts - c.clip_start_ts) 0 }
        (by intro x hx; exact le_trans hcnxt (hnxt_le x hx)) hs'
      exact this
    · -- flush branch
      have hrec := ih nxt hnxt_le hs'
      constructor
      · intro e he
        rcases List.mem_append.mp he with h | h
        · split at h
          · rcases List.mem_singleton.mp h with rfl; exact le_refl _
          · simp at h
        · exact le_trans hcnxt (hrec.1 e h)
      · split
        · refine List.sorted_cons.mpr ⟨?_, hrec.2⟩
          intro b hb
          exact le_trans hcnxt (hrec.1 b hb)
        · simpa using hrec.2

/-- When every excerpt in play shares one source file path, flushed
accumulators are separated from all later output by strictly more than the
gap tolerance. -/
theorem mergeLoop_pairwise_sep (gap minDur : ℚ) :
    ∀ (l : List ExportExcerpt) (c : ExportExcerpt),
      (∀ x ∈ l, c.segment_path = x.segment_path) →
      (∀ x ∈ l, c.clip_start_ts ≤ x.clip_start_ts) →
      l.Sorted startLE →
      List.Pairwise (fun a b => a.clip_end_ts + gap < b.clip_start_ts)
        (mergeLoop gap minDur c l) := by
  intro l
  induction l with
  | nil =>
    intro c _ _ _
    simp only [mergeLoop]
    split
    · exact List.pairwise_singleton _ _
    · exact List.Pairwise.nil
  | cons nxt rest ih =>
    intro c hpath hlb hs
    have hs' : rest.Sorted startLE := (List.sorted_cons.mp hs).2
    have hnxt_le : ∀ x ∈ rest, nxt.clip_start_ts ≤ x.clip_start_ts :=
      fun x hx => (List.sorted_cons.mp hs).1 x hx
    have hpath_nxt : c.segment_path = nxt.segment_path := hpath nxt (List.mem_cons_self _ _)
    have hpath_rest : ∀ x ∈ rest, nxt.segment_path = x.segment_path :=
      fun x hx => hpath_nxt ▸ hpath x (List.mem_cons_of_mem _ hx)
    simp only [mergeLoop]
    split
    · exact ih _ (fun x hx => hpath x (List.mem_cons_of_mem _ hx))
        (fun x hx => le_trans (hlb nxt (List.mem_cons_self _ _)) (hnxt_le x hx)) hs'
    · rename_i hcond
      have hgap : gap < nxt.clip_start_ts - c.clip_end_ts := by
        by_contra hle
        exact hcond ⟨hpath_nxt, le_of_not_lt hle⟩
      have hsep : c.clip_end_ts + gap < nxt.clip_start_ts := by linarith
      have hrec := ih nxt hpath_rest hnxt_le hs'
      have hlbrec := (mergeLoop_le_and_sorted gap minDur rest nxt hnxt_le hs').1
      split
      · refine List.pairwise_cons.mpr ⟨?_, hrec⟩
        intro b hb
        exact lt_of_lt_of_le hsep (hlbrec b hb)
      · simpa using hrec

/-- A list on which no adjacent pair is mergeable and every excerpt passes
the duration filter is returned unchanged by the merge walk. -/
theorem mergeLoop_id (gap minDur : ℚ) :
    ∀ (l : List ExportExcerpt) (c : ExportExcerpt),
      List.Chain'
        (fun a b => ¬(a.segment_path = b.segment_path ∧
          b.clip_start_ts - a.clip_end_ts ≤ gap)) (c :: l) →
      (∀ e ∈ c :: l, minDur ≤ e.duration_sec) →
      mergeLoop gap minDur c l = c :: l := by
  intro l
  induction l with
  | nil =>
    intro c _ hdur
    simp only [mergeLoop, if_pos (hdur c (List.mem_cons_self _ _))]
  | cons nxt rest ih =>
    intro c hchain hdur
    have hnot : ¬(c.segment_path = nxt.segment_path ∧
        nxt.clip_start_ts - c.clip_end_ts ≤ gap) :=
      (List.chain'_cons.mp hchain).1
    simp only [mergeLoop, if_neg hnot,
      if_pos (hdur c (List.mem_cons_self _ _))]
    rw [ih nxt (List.chain'_cons.mp hchain).2
      (fun e he => hdur e (List.mem_cons_of_mem _ he))]
    rfl

/-- A sorted, filter-passing list with no mergeable adjacent pair is a
fixed point of `_merge_and_filter_excerpts`. -/
theorem mergeAndFilter_eq_self (xs : List ExportExcerpt) (g m : ℚ)
    (hsorted : xs.Sorted startLE)
    (hchain : List.Chain'
      (fun a b => ¬(a.segment_path = b.segment_path ∧
        b.clip_start_ts - a.clip_end_ts ≤ max g 0)) xs)
    (hdur : ∀ e ∈ xs, max m 0 ≤ e.duration_sec) :
    mergeAndFilterExcerpts xs g m = xs := by
  cases xs with
  | nil => rfl
  | cons c l =>
    show (match List.insertionSort startLE (c :: l) with
      | [] => []
      | current :: rest => mergeLoop (max g 0) (max m 0) current rest) = c :: l
    rw [hsorted.insertionSort_eq]
    exact mergeLoop_id (max g 0) (max m 0) l c hchain hdur

/-- Collected guarantees of `_merge_and_filter_excerpts`: the output is
sorted by clip start, passes the clamped duration filter, is empty on
empty input, and, when all input excerpts share one source path, its
members are pairwise separated by more than the gap tolerance. -/
theorem mergeAndFilter_props (xs : List ExportExcerpt) (g m : ℚ) :
    (mergeAndFilterExcerpts xs g m).Sorted startLE ∧
      (∀ e ∈ mergeAndFilterExcerpts xs g m, max m 0 ≤ e.duration_sec) ∧
      (xs = [] → mergeAndFilterExcerpts xs g m = []) ∧
      ((∀ a ∈ xs, ∀ b ∈ xs, a.segment_path = b.segment_path) →
        List.Pairwise (fun a b => a.clip_end_ts + max g 0 < b.clip_start_ts)
          (mergeAndFilterExcerpts xs g m)) := by
  by_cases hnil : xs = []
  · subst hnil
    refine ⟨List.sorted_nil, ?_, fun _ => rfl, fun _ => List.Pairwise.nil⟩
    intro e he
    simp [mergeAndFilterExcerpts] at he
  · obtain ⟨x, xs', rfl⟩ := List.exists_cons_of_ne_nil hnil
    set xs := x :: xs' with hxs
    have hsort := List.sorted_insertionSort startLE xs
    rcases hcons : List.insertionSort startLE xs with _ | ⟨c, rest⟩
    · exfalso
      have := List.length_insertionSort startLE xs
      rw [hcons] at this
      exact hnil (List.length_eq_zero.mp this.symm)
    · have hdef : mergeAndFilterExcerpts xs g m = mergeLoop (max g 0) (max m 0) c rest := by
        rw [hxs]
        show (match List.insertionSort startLE (x :: xs') with
          | [] => []
          | current :: rest => mergeLoop (max g 0) (max m 0) current rest) =
            mergeLoop (max g 0) (max m 0) c rest
        rw [← hxs, hcons]
      rw [hcons] at hsort
      have hs' : rest.Sorted startLE := (List.sorted_cons.mp hsort).2
      have hlb : ∀ x ∈ rest, c.clip_start_ts ≤ x.clip_start_ts :=
        fun x hx => (List.sorted_cons.mp hsort).1 x hx
      refine ⟨?_, ?_, fun h => absurd h hnil, ?_⟩
      · rw [hdef]
        exact (mergeLoop_le_and_sorted (max g 0) (max m 0) rest c hlb hs').2
      · rw [hdef]
        exact fun e he => mergeLoop_minDur (max g 0) (max m 0) rest c e he
      · intro hpaths
        have hmemc : c ∈ xs := by
          rw [← List.mem_insertionSort startLE, hcons]
          exact List.mem_cons_self _ _
        have hpath' : ∀ x ∈ rest, c.segment_path = x.segment_path := by
          intro x hx
          have hmemx : x ∈ xs := by
            rw [← List.mem_insertionSort startLE, hcons]
            exact List.mem_cons_of_mem _ hx
          exact hpaths c hmemc x hmemx
        rw [hdef]
        exact mergeLoop_pairwise_sep (max g 0) (max m 0) rest c hpath' hlb hs'

/-- Concrete input refuting the same-path no-overlap guarantee of the
claim about `_merge_and_filter_excerpts`: two excerpts of file `f`
separated in start order by an excerpt of file `g`. -/
def overlapBreaker : List ExportExcerpt :=
  [⟨"c1", "s1", "f", 0, 100, 0, 100⟩,
   ⟨"c2", "s2", "g", 50, 55, 0, 5⟩,
   ⟨"c1", "s3", "f", 60, 70, 0, 10⟩]

/-- C1: the claimed guarantee fails: with gap 0 and minimum duration 0
(both admissible parameters) the merged output of `overlapBreaker`
contains two excerpts of the same source file whose time ranges overlap. -/
theorem c1_no_overlap_counterexample :
    0 ≤ (0 : ℚ) ∧ 0 ≤ (0 : ℚ) ∧
      ¬ List.Pairwise
        (fun a b => a.segment_path = b.segment_path →
          ¬(max a.clip_start_ts b.clip_start_ts < min a.clip_end_ts b.clip_end_ts))
        (mergeAndFilterExcerpts overlapBreaker 0 0) := by
  refine ⟨le_refl _, le_refl _, ?_⟩
  decide

/-- C1 (amended): for gap `g ≥ 0` and minimum duration `m ≥ 0` the merged
output is ordered by clip start, every excerpt has duration at least `m`,
empty input gives empty output, and — when all input excerpts come from a
single source file path — no two output excerpts overlap in time.  (The
per-path no-overlap guarantee fails for mixed-path inputs, see the
counterexample.) -/
theorem c1_merge_guarantees (xs : List ExportExcerpt) (g m : ℚ)
    (hg : 0 ≤ g) (hm : 0 ≤ m) :
    (mergeAndFilterExcerpts xs g m).Sorted startLE ∧
      (∀ e ∈ mergeAndFilterExcerpts xs g m, m ≤ e.duration_sec) ∧
      (xs = [] → mergeAndFilterExcerpts xs g m = []) ∧
      ((∀ a ∈ xs, ∀ b ∈ xs, a.segment_path = b.segment_path) →
        List.Pairwise
          (fun a b => ¬(max a.clip_start_ts b.clip_start_ts <
            min a.clip_end_ts b.clip_end_ts))
          (mergeAndFilterExcerpts xs g m)) := by
  obtain ⟨h1, h2, h3, h4⟩ := mergeAndFilter_props xs g m
  refine ⟨h1, ?_, h3, ?_⟩
  · intro e he
    have := h2 e he
    have hmm : max m 0 = m := max_eq_left hm
    rwa [hmm] at this
  · intro hpaths
    refine (h4 hpaths).imp ?_
    intro a b hsep hoverlap
    have h1' : min a.clip_end_ts b.clip_end_ts ≤ a.clip_end_ts := min_le_left _ _
    have h2' : b.clip_start_ts ≤ max a.clip_start_ts b.clip_start_ts := le_max_right _ _
    have h3' : a.clip_end_ts < b.clip_start_ts := by
      have hg' : (0 : ℚ) ≤ max g 0 := le_max_right _ _
      linarith
    linarith

/-- C1 witness input: two near-contiguous excerpts of one file plus the
guards of the amended theorem discharged at `overlapBreaker` restricted to
a single path. -/
def singlePathInput : List ExportExcerpt :=
  [⟨"c1", "s1", "f", 0, 10, 0, 10⟩,
   ⟨"c1", "s3", "f", 101/10, 15, 0, 49/10⟩]

/-- Witness for the amended C1 theorem at a concrete single-path input. -/
theorem c1_merge_guarantees_witness :
    0 ≤ (1/5 : ℚ) ∧ 0 ≤ (3/10 : ℚ) ∧
      ((mergeAndFilterExcerpts singlePathInput (1/5) (3/10)).Sorted startLE ∧
        (∀ e ∈ mergeAndFilterExcerpts singlePathInput (1/5) (3/10),
          (3/10 : ℚ) ≤ e.duration_sec) ∧
        (singlePathInput = [] →
          mergeAndFilterExcerpts singlePathInput (1/5) (3/10) = []) ∧
        ((∀ a ∈ singlePathInput, ∀ b ∈ singlePathInput,
            a.segment_path = b.segment_path) →
          List.Pairwise
            (fun a b => ¬(max a.clip_start_ts b.clip_start_ts <
              min a.clip_end_ts b.clip_end_ts))
            (mergeAndFilterExcerpts singlePathInput (1/5) (3/10)))) :=
  ⟨by norm_num, by norm_num,
    c1_merge_guarantees singlePathInput (1/5) (3/10) (by norm_num) (by norm_num)⟩

/-- Concrete input refuting merge idempotence: the short middle excerpt of
file `g` is dropped by the duration filter, leaving two same-file
excerpts adjacent that a second pass then merges. -/
def gapBridgeInput : List ExportExcerpt :=
  [⟨"c", "s", "f", 0, 100, 0, 100⟩,
   ⟨"c", "s", "g", 50, 51, 0, 1⟩,
   ⟨"c", "s", "f", 60, 70, 0, 10⟩]

/-- C2: idempotence of `_merge_and_filter_excerpts` fails at admissible
parameters gap 0, minimum duration 5: merging the merged output again
changes the list (the short file-`g` excerpt is filtered out, leaving two
overlapping file-`f` excerpts that the second pass merges). -/
theorem c2_idempotence_counterexample :
    0 ≤ (0 : ℚ) ∧ 0 ≤ (5 : ℚ) ∧
      mergeAndFilterExcerpts
          (mergeAndFilterExcerpts gapBridgeInput 0 5) 0 5 ≠
        mergeAndFilterExcerpts gapBridgeInput 0 5 := by
  have hfg : ("f" : String) ≠ "g" := by decide
  have hgf : ("g" : String) ≠ "f" := by decide
  have h1 : mergeAndFilterExcerpts gapBridgeInput 0 5 =
      [⟨"c", "s", "f", 0, 100, 0, 100⟩, ⟨"c", "s", "f", 60, 70, 0, 10⟩] := by
    norm_num [mergeAndFilterExcerpts, gapBridgeInput, List.insertionSort,
      List.orderedInsert, startLE, mergeLoop, hfg, hgf]
  have h2 : mergeAndFilterExcerpts
      [(⟨"c", "s", "f", 0, 100, 0, 100⟩ : ExportExcerpt),
       ⟨"c", "s", "f", 60, 70, 0, 10⟩] 0 5 =
      [⟨"c", "s", "f", 0, 100, 0, 100⟩] := by
    norm_num [mergeAndFilterExcerpts, List.insertionSort,
      List.orderedInsert, startLE, mergeLoop]
  refine ⟨le_refl _, by norm_num, ?_⟩
  rw [h1, h2]
  simp

/-- C2 (amended): `_merge_and_filter_excerpts` is idempotent for gap
`g ≥ 0` and minimum duration `m ≥ 0` whenever all input excerpts share a
single source file path.  (With mixed paths the duration filter can delete
an excerpt sitting between two same-file excerpts, letting a second pass
merge across the hole, see the counterexample.) -/
theorem c2_merge_idempotent_single_path (xs : List ExportExcerpt) (g m : ℚ)
    (hg : 0 ≤ g) (hm : 0 ≤ m)
    (hpaths : ∀ a ∈ xs, ∀ b ∈ xs, a.segment_path = b.segment_path) :
    mergeAndFilterExcerpts (mergeAndFilterExcerpts xs g m) g m =
      mergeAndFilterExcerpts xs g m := by
  obtain ⟨h1, h2, _, h4⟩ := mergeAndFilter_props xs g m
  refine mergeAndFilter_eq_self _ g m h1 ?_ h2
  refine ((h4 hpaths).chain').imp ?_
  intro a b hsep hmerge
  have := hmerge.2
  linarith

/-- Witness for the amended C2 theorem at a concrete single-path input. -/
theorem c2_merge_idempotent_witness :
    0 ≤ (1/5 : ℚ) ∧ 0 ≤ (3/10 : ℚ) ∧
      (∀ a ∈ singlePathInput, ∀ b ∈ singlePathInput,
        a.segment_path = b.segment_path) ∧
      mergeAndFilterExcerpts
          (mergeAndFilterExcerpts singlePathInput (1/5) (3/10)) (1/5) (3/10) =
        mergeAndFilterExcerpts singlePathInput (1/5) (3/10) :=
  ⟨by norm_num, by norm_num, by decide,
    c2_merge_idempotent_single_path singlePathInput (1/5) (3/10)
      (by norm_num) (by norm_num) (by decide)⟩

/-- Time bucket of a clip start, modelling
`clip_start_ts.strftime("%Y%m%d%H%M")`: two UTC timestamps produce the
same key string exactly when they fall in the same calendar minute,
i.e. when their epoch seconds have the same floor after division by 60. -/
def bucketKey (t : ℚ) : ℤ := ⌊t / 60⌋

/-- Score of one candidate inside the selection loop of
`build_highlight_plan`: duration credit capped at `clip_cap`, minus 0.25
per already-picked clip of the same camera and 0.15 per already-picked
clip of the same minute bucket. -/
def scoreOf (clip_cap : ℚ) (camera_count : String → ℕ) (bucket_count : ℤ → ℕ)
    (item : ExportExcerpt) : ℚ :=
  min item.duration_sec clip_cap / clip_cap
    - (camera_count item.camera_id : ℚ) * (25/100)
    - (bucket_count (bucketKey item.clip_start_ts) : ℚ) * (15/100)

/-- The inner argmax scan of `build_highlight_plan`: running best index
(initially -1) and best score (initially -1e9), updated on strictly
greater scores. -/
def selectStep (clip_cap : ℚ) (camera_count : String → ℕ) (bucket_count : ℤ → ℕ)
    (st : ℤ × ℚ) (p : ℕ × ExportExcerpt) : ℤ × ℚ :=
  if st.2 < scoreOf clip_cap camera_count bucket_count p.2 then
    ((p.1 : ℤ), scoreOf clip_cap camera_count bucket_count p.2)
  else st

def selectBest (clip_cap : ℚ) (camera_count : String → ℕ) (bucket_count : ℤ → ℕ)
    (candidates : List ExportExcerpt) : ℤ × ℚ :=
  candidates.enum.foldl (selectStep clip_cap camera_count bucket_count) (-1, -(10 ^ 9))

/-- The greedy while-loop of `build_highlight_plan`.  The fuel argument
is initialised to the number of candidates; every iteration removes one
candidate, so the fuel never runs out. -/
def highlightLoop (clip_cap : ℚ) :
    ℕ → List ExportExcerpt → (String → ℕ) → (ℤ → ℕ) → ℚ →
      List ExportExcerpt → List ExportExcerpt
  | 0, _, _, _, _, selected => selected
  | fuel + 1, candidates, camera_count, bucket_count, remaining, selected =>
    if candidates = [] ∨ remaining ≤ 0 then selected
    else
      let best := selectBest clip_cap camera_count bucket_count candidates
      if best.1 < 0 then selected
      else
        match candidates.get? best.1.toNat with
        | none => selected
        | some item =>
          let candidates' := candidates.eraseIdx best.1.toNat
          if remaining ≤ 0 then selected
          else
            let take := min (min item.duration_sec clip_cap) remaining
            if take ≤ 0 then
              highlightLoop clip_cap fuel candidates'
                camera_count bucket_count remaining selected
            else
              let key := bucketKey item.clip_start_ts
              highlightLoop clip_cap fuel candidates'
                (Function.update camera_count item.camera_id
                  (camera_count item.camera_id + 1))
                (Function.update bucket_count key (bucket_count key + 1))
                (remaining - take)
                (selected ++
                  [{ item with
                      clip_end_ts := item.clip_start_ts + take,
                      duration_sec := take }])

/-- Mirror of `build_highlight_plan` in `export_service.py`. -/
def buildHighlightPlan (excerpts : List ExportExcerpt)
    (target_seconds per_clip_seconds : ℚ) : List ExportExcerpt :=
  let remaining := max target_seconds 0
  let clip_cap := max per_clip_seconds (1/10)
  if remaining ≤ 0 ∨ excerpts = [] then []
  else
    List.insertionSort startLE
      (highlightLoop clip_cap excerpts.length excerpts
        (fun _ => 0) (fun _ => 0) remaining [])

/-- Total selected duration. -/
def sumDur (l : List ExportExcerpt) : ℚ :=
  (l.map (fun e => e.duration_sec)).sum

theorem sumDur_append (a b : List ExportExcerpt) :
    sumDur (a ++ b) = sumDur a + sumDur b := by
  simp [sumDur]

/-- The argmax scan never loses a non-negative best index. -/
theorem selectStep_fold_nonneg (clip_cap : ℚ) (cam : String → ℕ) (buck : ℤ → ℕ) :
    ∀ (l : List (ℕ × ExportExcerpt)) (b : ℤ) (s : ℚ),
      (0 ≤ b ∨ ∃ p ∈ l, s < scoreOf clip_cap cam buck p.2) →
      0 ≤ (l.foldl (selectStep clip_cap cam buck) (b, s)).1 := by
  intro l
  induction l with
  | nil =>
    intro b s h
    rcases h with h | ⟨p, hp, _⟩
    · simpa using h
    · simp at hp
  | cons x tl ih =>
    intro b s h
    rw [List.foldl_cons]
    by_cases hx : s < scoreOf clip_cap cam buck x.2
    · rw [selectStep, if_pos hx]
      exact ih _ _ (Or.inl (Int.ofNat_nonneg x.1))
    · rw [selectStep, if_neg hx]
      rcases h with h | ⟨p, hp, hs⟩
      · exact ih _ _ (Or.inl h)
      · rcases List.mem_cons.mp hp with rfl | hp'
        · exact absurd hs hx
        · exact ih _ _ (Or.inr ⟨p, hp', hs⟩)

/-- The argmax scan over indices starting at `n` keeps the best index
below `n` plus the number of scanned candidates. -/
theorem selectStep_fold_lt (clip_cap : ℚ) (cam : String → ℕ) (buck : ℤ → ℕ) :
    ∀ (l : List ExportExcerpt) (n : ℕ) (b : ℤ) (s : ℚ),
      b < (n : ℤ) →
      (List.foldl (selectStep clip_cap cam buck) (b, s) (List.enumFrom n l)).1 <
        (n : ℤ) + l.length := by
  intro l
  induction l with
  | nil =>
    intro n b s hb
    simpa using lt_of_lt_of_le hb (by simp)
  | cons x tl ih =>
    intro n b s hb
    rw [List.enumFrom_cons, List.foldl_cons]
    have haux : ∀ (b' : ℤ) (s' : ℚ), b' < ((n + 1 : ℕ) : ℤ) →
        (List.foldl (selectStep clip_cap cam buck) (b', s')
            (List.enumFrom (n + 1) tl)).1 < (n : ℤ) + (x :: tl).length := by
      intro b' s' hst
      have := ih (n + 1) b' s' hst
      push_cast [List.length_cons] at this ⊢
      omega
    simp only [selectStep]
    split
    · exact haux _ _ (by push_cast; omega)
    · exact haux _ _ (by push_cast; omega)

/-- The best index of `selectBest` is below the number of candidates. -/
theorem selectBest_lt (clip_cap : ℚ) (cam : String → ℕ) (buck : ℤ → ℕ)
    (candidates : List ExportExcerpt) :
    (selectBest clip_cap cam buck candidates).1 < (candidates.length : ℤ) := by
  have h := selectStep_fold_lt clip_cap cam buck candidates 0 (-1) (-(10 ^ 9)) (by norm_num)
  rw [selectBest, List.enum]
  simpa using h

/-- If some candidate scores above the initial best score, `selectBest`
returns a non-negative index. -/
theorem selectBest_nonneg (clip_cap : ℚ) (cam : String → ℕ) (buck : ℤ → ℕ)
    (candidates : List ExportExcerpt)
    (h : ∃ c ∈ candidates, -(10 ^ 9 : ℚ) < scoreOf clip_cap cam buck c) :
    0 ≤ (selectBest clip_cap cam buck candidates).1 := by
  rw [selectBest]
  apply selectStep_fold_nonneg
  right
  obtain ⟨c, hc, hsc⟩ := h
  obtain ⟨i, hi, hgi⟩ := List.mem_iff_getElem.mp hc
  refine ⟨(i, c), ?_, hsc⟩
  rw [List.mk_mem_enum_iff_getElem?]
  rw [List.getElem?_eq_getElem hi, hgi]

theorem exists_append_of_extends {α : Type} (acc mid : List α) (res : List α)
    (h : ∃ t, res = (acc ++ mid) ++ t) : ∃ t, res = acc ++ t := by
  obtain ⟨t, ht⟩ := h
  exact ⟨mid ++ t, by rw [ht, List.append_assoc]⟩

/-- The greedy loop only ever appends to the already-selected list. -/
theorem highlightLoop_extends (clip_cap : ℚ) :
    ∀ (fuel : ℕ) (cands : List ExportExcerpt) (cam : String → ℕ) (buck : ℤ → ℕ)
      (r : ℚ) (acc : List ExportExcerpt),
      ∃ t, highlightLoop clip_cap fuel cands cam buck r acc = acc ++ t := by
  intro fuel
  induction fuel with
  | zero =>
    intro cands cam buck r acc
    exact ⟨[], by simp [highlightLoop]⟩
  | succ fuel ih =>
    intro cands cam buck r acc
    simp only [highlightLoop]
    split
    · exact ⟨[], by simp⟩
    split
    · exact ⟨[], by simp⟩
    split
    · exact ⟨[], by simp⟩
    split
    · exact ⟨[], by simp⟩
    split
    · exact ih _ _ _ _ _
    · exact exists_append_of_extends acc _ _ (ih _ _ _ _ _)

theorem highlightLoop_ne_nil_of_acc (clip_cap : ℚ) (fuel : ℕ)
    (cands : List ExportExcerpt) (cam : String → ℕ) (buck : ℤ → ℕ) (r : ℚ)
    (acc : List ExportExcerpt) (ha : acc ≠ []) :
    highlightLoop clip_cap fuel cands cam buck r acc ≠ [] := by
  obtain ⟨t, ht⟩ := highlightLoop_extends clip_cap fuel cands cam buck r acc
  rw [ht]
  intro h
  exact ha (List.append_eq_nil.mp h).1

/-- The greedy loop keeps the total selected duration within the
remaining budget. -/
theorem highlightLoop_sum (clip_cap : ℚ) :
    ∀ (fuel : ℕ) (cands : List ExportExcerpt) (cam : String → ℕ) (buck : ℤ → ℕ)
      (r : ℚ) (acc : List ExportExcerpt),
      sumDur (highlightLoop clip_cap fuel cands cam buck r acc) ≤
        sumDur acc + max r 0 := by
  intro fuel
  induction fuel with
  | zero =>
    intro cands cam buck r acc
    simpa [highlightLoop] using le_add_of_nonneg_right (le_max_right r 0)
  | succ fuel ih =>
    intro cands cam buck r acc
    have hbase : sumDur acc ≤ sumDur acc + max r 0 :=
      le_add_of_nonneg_right (le_max_right r 0)
    simp only [highlightLoop]
    split
    · exact hbase
    split
    · exact hbase
    split
    · exact hbase
    rename_i item heq
    split
    · exact hbase
    rename_i hrpos
    split
    · exact ih _ _ _ _ _
    · rename_i htake
      refine le_trans (ih _ _ _ _ _) ?_
      rw [sumDur_append]
      have htk : 0 < min (min item.duration_sec clip_cap) r := not_le.mp htake
      have hr : 0 < r := not_le.mp hrpos
      have htr : min (min item.duration_sec clip_cap) r ≤ r := min_le_right _ _
      have hm1 : max (r - min (min item.duration_sec clip_cap) r) 0 =
          r - min (min item.duration_sec clip_cap) r :=
        max_eq_left (by linarith)
      have hm2 : max r 0 = r := max_eq_left hr.le
      rw [hm1, hm2]
      simp only [sumDur, List.map_cons, List.map_nil, List.sum_cons, List.sum_nil]
      linarith

/-- If every candidate has non-positive duration the greedy loop selects
nothing. -/
theorem highlightLoop_nonpos (clip_cap : ℚ) :
    ∀ (fuel : ℕ) (cands : List ExportExcerpt) (cam : String → ℕ) (buck : ℤ → ℕ)
      (r : ℚ) (acc : List ExportExcerpt),
      (∀ c ∈ cands, c.duration_sec ≤ 0) →
      highlightLoop clip_cap fuel cands cam buck r acc = acc := by
  intro fuel
  induction fuel with
  | zero =>
    intro cands cam buck r acc _
    simp [highlightLoop]
  | succ fuel ih =>
    intro cands cam buck r acc hnp
    have hsub : ∀ i, ∀ c ∈ cands.eraseIdx i, c.duration_sec ≤ 0 :=
      fun i c hc => hnp c ((List.eraseIdx_sublist cands i).subset hc)
    simp only [highlightLoop]
    split
    · rfl
    split
    · rfl
    split
    · rfl
    rename_i item heq
    split
    · rfl
    split
    · exact ih _ _ _ _ _ (hsub _)
    · rename_i htake
      exfalso
      apply htake
      have hmem : item ∈ cands := List.get?_mem heq
      calc min (min item.duration_sec clip_cap) r
          ≤ min item.duration_sec clip_cap := min_le_left _ _
        _ ≤ item.duration_sec := min_le_left _ _
        _ ≤ 0 := hnp item hmem

/-- With a positive budget and at least one positive-duration candidate,
the highlight selector selects at least one clip. -/
theorem buildHighlightPlan_ne_nil (xs : List ExportExcerpt) (T P : ℚ)
    (hpos : ∀ e ∈ xs, 0 < e.duration_sec) (hT : 0 < T) (hne : xs ≠ []) :
    buildHighlightPlan xs T P ≠ [] := by
  obtain ⟨x, xs', rfl⟩ := List.exists_cons_of_ne_nil hne
  have hcap : 0 < max P (1/10) := lt_of_lt_of_le (by norm_num) (le_max_right _ _)
  have hmaxT : max T 0 = T := max_eq_left hT.le
  have hguard : ¬((x :: xs') = [] ∨ max T 0 ≤ 0) :=
    not_or.mpr ⟨List.cons_ne_nil x xs', by rw [hmaxT]; exact not_le.mpr hT⟩
  have hscx : -(10 ^ 9 : ℚ) <
      scoreOf (max P (1/10)) (fun _ => 0) (fun _ => 0) x := by
    have hdx := hpos x (List.mem_cons_self _ _)
    have hdiv : 0 < min x.duration_sec (max P (1/10)) / max P (1/10) :=
      div_pos (lt_min hdx hcap) hcap
    have h9 : (0 : ℚ) < 10 ^ 9 := by positivity
    simp only [scoreOf, Nat.cast_zero, zero_mul, sub_zero]
    linarith
  have hbn : 0 ≤ (selectBest (max P (1/10)) (fun _ => 0) (fun _ => 0) (x :: xs')).1 :=
    selectBest_nonneg _ _ _ _ ⟨x, List.mem_cons_self _ _, hscx⟩
  have hltn := selectBest_lt (max P (1/10)) (fun _ => 0) (fun _ => 0) (x :: xs')
  have hlt : (selectBest (max P (1/10)) (fun _ => 0) (fun _ => 0) (x :: xs')).1.toNat <
      (x :: xs').length := by omega
  have hloop : highlightLoop (max P (1/10)) (xs'.length + 1) (x :: xs')
      (fun _ => 0) (fun _ => 0) (max T 0) [] ≠ [] := by
    simp only [highlightLoop]
    rw [if_neg hguard, if_neg (not_lt.mpr hbn)]
    split
    · rename_i heq
      rw [List.get?_eq_get hlt] at heq
      exact Option.noConfusion heq
    · rename_i item heq
      rw [if_neg (hguard ∘ Or.inr)]
      have hitem : 0 < item.duration_sec := hpos item (List.get?_mem heq)
      have htk : 0 < min (min item.duration_sec (max P (1/10))) (max T 0) :=
        lt_min (lt_min hitem hcap) (by rw [hmaxT]; exact hT)
      rw [if_neg (not_le.mpr htk)]
      exact highlightLoop_ne_nil_of_acc _ _ _ _ _ _ _ (by simp)
  have hguard2 : ¬(max T 0 ≤ 0 ∨ (x :: xs') = []) :=
    not_or.mpr ⟨by rw [hmaxT]; exact not_le.mpr hT, List.cons_ne_nil x xs'⟩
  simp only [buildHighlightPlan, List.length_cons]
  rw [if_neg hguard2]
  intro hnil
  apply hloop
  have hlen := List.length_insertionSort startLE
    (highlightLoop (max P (1/10)) (xs'.length + 1) (x :: xs')
      (fun _ => 0) (fun _ => 0) (max T 0) [])
  rw [hnil] at hlen
  exact List.length_eq_zero.mp hlen.symm

/-- Excerpt with positive duration used as a witness input. -/
def posDurExcerpt : ExportExcerpt := ⟨"c", "s", "p", 0, 5, 0, 5⟩

/-- Excerpt with zero duration used in the C3 counterexample. -/
def zeroDurExcerpt : ExportExcerpt := ⟨"c", "s", "p", 0, 0, 0, 0⟩

/-- C3: the claim fails as stated: for a negative target the selected sum
(zero) is not bounded by the target, and a positive target with a
non-empty input of zero-duration excerpts still yields an empty
selection. -/
theorem c3_budget_counterexample :
    ¬ sumDur (buildHighlightPlan [posDurExcerpt] (-1) 4) ≤ -1 ∧
      (buildHighlightPlan [zeroDurExcerpt] 10 4 = [] ∧
        (0 : ℚ) < 10 ∧ ([zeroDurExcerpt] : List ExportExcerpt) ≠ []) := by
  constructor
  · have h : buildHighlightPlan [posDurExcerpt] (-1) 4 = [] := by
      simp only [buildHighlightPlan]
      rw [if_pos (Or.inl (by simp))]
    rw [h]
    simp [sumDur]
  · refine ⟨?_, by norm_num, by simp⟩
    simp only [buildHighlightPlan]
    rw [if_neg (not_or.mpr ⟨by simp, List.cons_ne_nil _ _⟩)]
    rw [highlightLoop_nonpos]
    · simp
    · intro c hc
      rcases List.mem_singleton.mp hc with rfl
      norm_num [zeroDurExcerpt]

/-- C3 (amended): the selected total duration is at most `max T 0` (the
clamped target), and — when every input excerpt has positive duration —
the selection is empty exactly when `T ≤ 0` or the input is empty.  (The
unclamped bound fails for negative `T`, and zero-duration excerpts make a
non-empty input yield an empty selection, see the counterexample.) -/
theorem c3_highlight_budget (xs : List ExportExcerpt) (T P : ℚ) :
    sumDur (buildHighlightPlan xs T P) ≤ max T 0 ∧
      ((∀ e ∈ xs, 0 < e.duration_sec) →
        (buildHighlightPlan xs T P = [] ↔ T ≤ 0 ∨ xs = [])) := by
  constructor
  · simp only [buildHighlightPlan]
    split
    · simp only [sumDur, List.map_nil, List.sum_nil]
      exact le_max_right _ _
    · have hperm := List.perm_insertionSort startLE
        (highlightLoop (max P (1/10)) xs.length xs (fun _ => 0) (fun _ => 0) (max T 0) [])
      have heq : sumDur (List.insertionSort startLE
          (highlightLoop (max P (1/10)) xs.length xs
            (fun _ => 0) (fun _ => 0) (max T 0) [])) =
          sumDur (highlightLoop (max P (1/10)) xs.length xs
            (fun _ => 0) (fun _ => 0) (max T 0) []) := by
        simp only [sumDur]
        exact (hperm.map _).sum_eq
      rw [heq]
      have hsum := highlightLoop_sum (max P (1/10)) xs.length xs
        (fun _ => 0) (fun _ => 0) (max T 0) []
      have hnil : sumDur ([] : List ExportExcerpt) = 0 := rfl
      rw [hnil, zero_add] at hsum
      have hmm : max (max T 0) 0 = max T 0 := max_eq_left (le_max_right _ _)
      rwa [hmm] at hsum
  · intro hpos
    constructor
    · intro hnil
      by_contra hcon
      push_neg at hcon
      exact buildHighlightPlan_ne_nil xs T P hpos hcon.1 hcon.2 hnil
    · intro h
      rcases h with hT | hxs
      · simp only [buildHighlightPlan]
        rw [if_pos (Or.inl (max_le hT (le_refl 0)))]
      · subst hxs
        simp [buildHighlightPlan]

/-- Witness for the amended C3 theorem at a concrete positive-duration
input. -/
theorem c3_highlight_budget_witness :
    (∀ e ∈ [posDurExcerpt], 0 < e.duration_sec) ∧
      (buildHighlightPlan [posDurExcerpt] 7 4 = [] ↔
        (7 : ℚ) ≤ 0 ∨ ([posDurExcerpt] : List ExportExcerpt) = []) :=
  ⟨by intro e he; rcases List.mem_singleton.mp he with rfl; norm_num [posDurExcerpt],
    (c3_highlight_budget [posDurExcerpt] 7 4).2
      (by intro e he; rcases List.mem_singleton.mp he with rfl; norm_num [posDurExcerpt])⟩

/-- Mirror of the `ExportJob` row in `app/db/models.py`.  Timestamps are
rational seconds; nullable columns are `Option`. -/
structure ExportJob where
  job_id : String
  global_track_id : String
  mode : String
  status : String
  payload_json : String
  retry_count : ℤ
  max_retries : ℤ
  next_run_at : Option ℚ
  canceled_at : Option ℚ
  export_id : Option String
  manifest_path : Option String
  video_path : Option String
  error_message : Option String
  created_at : ℚ
  started_at : Option ℚ
  finished_at : Option ℚ
deriving DecidableEq, Repr

/-- The fresh `ExportJob(...)` row built by `create_export_job` in
`routes.py`: status pending, zero retries, `next_run_at = now`. -/
def newExportJob (global_track_id mode payload_json : String)
    (max_retries : ℤ) (job_id : String) (now : ℚ) : ExportJob :=
  { job_id := job_id
    global_track_id := global_track_id
    mode := mode
    status := "pending"
    payload_json := payload_json
    retry_count := 0
    max_retries := max_retries
    next_run_at := some now
    canceled_at := none
    export_id := none
    manifest_path := none
    video_path := none
    error_message := none
    created_at := now
    started_at := none
    finished_at := none }

/-- The dedupe query filter of `create_export_job`: same track identity,
mode and serialized payload, live status, not canceled. -/
def jobMatches (global_track_id mode payload_json : String) (j : ExportJob) : Bool :=
  j.global_track_id == global_track_id && j.mode == mode &&
    j.payload_json == payload_json &&
    (j.status == "pending" || j.status == "running") && j.canceled_at.isNone

/-- `ORDER BY created_at DESC LIMIT 1`: the row with the greatest
creation time (first such row on ties). -/
def latestCreated (l : List ExportJob) : Option ExportJob :=
  l.foldl
    (fun acc j =>
      match acc with
      | none => some j
      | some k => if k.created_at < j.created_at then some j else some k)
    none

/-- Mirror of `create_export_job` in `routes.py`.  The store is the
`export_jobs` table; `fresh_job_id` stands for the generated UUID. -/
def createExportJob (store : List ExportJob)
    (global_track_id mode payload_json : String) (max_retries : ℤ)
    (dedupe : Bool) (fresh_job_id : String) (now : ℚ) :
    Except String (ExportJob × List ExportJob) :=
  if mode ≠ "full" ∧ mode ≠ "highlights" then
    .error "mode must be one of: full, highlights"
  else if max_retries < 0 then
    .error "max_retries must be >= 0"
  else
    let dup :=
      if dedupe then
        latestCreated (store.filter (jobMatches global_track_id mode payload_json))
      else none
    match dup with
    | some existing => .ok (existing, store)
    | none =>
      let job := newExportJob global_track_id mode payload_json max_retries
        fresh_job_id now
      .ok (job, store ++ [job])

/-- The claim eligibility predicate of `_claim_next_job`:
`status='pending' AND canceled_at IS NULL AND (next_run_at IS NULL OR
next_run_at <= now)`. -/
def eligibleAt (now : ℚ) (j : ExportJob) : Bool :=
  j.status == "pending" && j.canceled_at.isNone &&
    (match j.next_run_at with
     | none => true
     | some t => decide (t ≤ now))

/-- Index and row of the oldest-created eligible job
(`ORDER BY created_at ASC LIMIT 1`). -/
def findOldestIdx (now : ℚ) : List ExportJob → Option (ℕ × ExportJob)
  | [] => none
  | j :: rest =>
    match findOldestIdx now rest with
    | none => if eligibleAt now j then some (0, j) else none
    | some (i, k) =>
      if eligibleAt now j then
        if k.created_at < j.created_at then some (i + 1, k) else some (0, j)
      else some (i + 1, k)

/-- The claim update of `_claim_next_job`: status running, stamp
`started_at`, clear `error_message`. -/
def claimedJob (j : ExportJob) (now : ℚ) : ExportJob :=
  { j with status := "running", started_at := some now, error_message := none }

/-- Mirror of `_claim_next_job`: one atomic select-and-update of the
oldest eligible pending job (both the Postgres single-statement path and
the fallback path perform this read-modify-write). -/
def claimNextJob (store : List ExportJob) (now : ℚ) :
    Option ExportJob × List ExportJob :=
  match findOldestIdx now store with
  | none => (none, store)
  | some (i, j) => (some (claimedJob j now), store.set i (claimedJob j now))

/-- `n` serialized claim attempts against the shared store, counting how
many of them obtain a job. -/
def claimAttempts : ℕ → List ExportJob → ℚ → ℕ × List ExportJob
  | 0, store, _ => (0, store)
  | n + 1, store, now =>
    let res := claimNextJob store now
    let rest := claimAttempts n res.2 now
    ((if res.1.isSome then 1 else 0) + rest.1, rest.2)

/-- Mirror of `cancel_export_job` in `routes.py`: terminal states are
returned unchanged, otherwise the job is flipped to canceled and
`next_run_at` cleared. -/
def applyCancel (j : ExportJob) (t : ℚ) : ExportJob :=
  if j.status = "done" ∨ j.status = "failed" ∨ j.status = "canceled" then j
  else { j with status := "canceled", canceled_at := some t, next_run_at := none }

/-- Mirror of `retry_export_job` in `routes.py` (the rejected non-retryable
case leaves the row unchanged). -/
def applyRetry (j : ExportJob) (t : ℚ) : ExportJob :=
  if j.status = "failed" ∨ j.status = "canceled" then
    { j with
        status := "pending"
        error_message := none
        started_at := none
        finished_at := none
        canceled_at := none
        next_run_at := some t
        retry_count := 0 }
  else j

/-- The success write of the worker `run` loop: result fields, status
done, `next_run_at` cleared.  `canceled_at` is not an assigned attribute
of the write and keeps its stored value. -/
def applySuccess (j : ExportJob) (t : ℚ) (eid mpath : String)
    (vpath : Option String) : ExportJob :=
  { j with
      export_id := some eid
      manifest_path := some mpath
      video_path := vpath
      status := "done"
      finished_at := some t
      next_run_at := none
      error_message := none }

/-- The exception branch of the worker `run` loop: increment the retry
count, requeue with capped exponential backoff while retries remain,
otherwise fail permanently. -/
def applyFailure (j : ExportJob) (t : ℚ) (msg : String) : ExportJob :=
  let retry_count := j.retry_count + 1
  if retry_count ≤ j.max_retries then
    { j with
        retry_count := retry_count
        status := "pending"
        next_run_at := some (t + min 300 ((2 : ℚ) ^ (retry_count - 1)))
        finished_at := some t
        error_message := some msg }
  else
    { j with
        retry_count := retry_count
        status := "failed"
        next_run_at := none
        finished_at := some t
        error_message := some msg }

/-- One job row as seen by the store, plus whether a worker currently
holds the claim on it. -/
structure WorkerWorld where
  job : ExportJob
  workerHolds : Bool
deriving DecidableEq, Repr

/-- The operations that can touch a job row: cancel and retry (API),
claim and execution outcome write (worker).  An `exec` op carries the
outcome of `_process_one`: `Except.ok (export_id, manifest_path,
video_path?)` or the raised error text. -/
inductive JobOp where
  | cancel (t : ℚ)
  | claim (t : ℚ)
  | exec (t : ℚ) (outcome : Except String (String × String × Option String))
  | retry (t : ℚ)
deriving Repr

def applyOp (w : WorkerWorld) : JobOp → WorkerWorld
  | .cancel t => { w with job := applyCancel w.job t }
  | .claim t =>
    if eligibleAt t w.job then
      { job := claimedJob w.job t, workerHolds := true }
    else w
  | .exec t outcome =>
    if w.workerHolds then
      match outcome with
      | .ok (eid, mpath, vpath) =>
        { job := applySuccess w.job t eid mpath vpath, workerHolds := false }
      | .error msg =>
        { job := applyFailure w.job t msg, workerHolds := false }
    else w
  | .retry t => { w with job := applyRetry w.job t }

def runOps (w : WorkerWorld) (ops : List JobOp) : WorkerWorld :=
  ops.foldl applyOp w

def initWorld (global_track_id mode payload_json : String) (max_retries : ℤ)
    (job_id : String) (t0 : ℚ) : WorkerWorld :=
  { job := newExportJob global_track_id mode payload_json max_retries job_id t0
    workerHolds := false }

/-- Trace restriction: no cancel request is issued while the job is in
the running state. -/
def noCancelWhileRunning : WorkerWorld → List JobOp → Bool
  | _, [] => true
  | w, op :: rest =>
    (match op with
     | JobOp.cancel _ => decide (w.job.status ≠ "running")
     | _ => true) && noCancelWhileRunning (applyOp w op) rest

def isSuccessExec : JobOp → Bool
  | .exec _ (.ok _) => true
  | _ => false

/-- Mirror of the control flow of `_process_one` in
`export_job_worker.py`.  Database reads, the saved manifest identifiers
and the render outcome are oracles; the function returns the result
fields assigned on success, or the raised error. -/
def processOne (planResult : Except String (List ExportExcerpt))
    (mode : String) (target_seconds per_clip_seconds : ℚ)
    (timedOutAfterPlan timedOutAfterSelect : Bool) (render_video : Bool)
    (export_id manifest_path : String)
    (renderResult : Except String String) :
    Except String (String × String × Option String) :=
  match planResult with
  | .error e => .error e
  | .ok excerpts =>
    if timedOutAfterPlan then .error "export job timeout exceeded"
    else
      let excerpts2 :=
        if mode = "highlights" then
          buildHighlightPlan excerpts target_seconds per_clip_seconds
        else excerpts
      if timedOutAfterSelect then .error "export job timeout exceeded"
      else if excerpts2 = [] then .error "No excerpts available for export"
      else if render_video then
        match renderResult with
        | .error e => .error e
        | .ok video_path => .ok (export_id, manifest_path, some video_path)
      else .ok (export_id, manifest_path, none)

theorem eligibleAt_spec {now : ℚ} {j : ExportJob} (h : eligibleAt now j = true) :
    j.status = "pending" ∧ j.canceled_at = none := by
  simp only [eligibleAt, Bool.and_eq_true, beq_iff_eq,
    Option.isNone_iff_eq_none] at h
  exact ⟨h.1.1, h.1.2⟩

theorem applyFailure_canceled_at (j : ExportJob) (t : ℚ) (msg : String) :
    (applyFailure j t msg).canceled_at = j.canceled_at := by
  simp only [applyFailure]
  split <;> rfl

/-- The two-part induction invariant for the cancel claim: the canceled
stamp implies the canceled status with no scheduled run, and a held claim
implies a running, uncanceled job. -/
def jobInv (w : WorkerWorld) : Prop :=
  (w.job.canceled_at ≠ none →
    w.job.status = "canceled" ∧ w.job.next_run_at = none) ∧
    (w.workerHolds = true →
      w.job.status = "running" ∧ w.job.canceled_at = none)

theorem jobInv_step (w : WorkerWorld) (op : JobOp) (hI : jobInv w)
    (hc : ∀ t, op = JobOp.cancel t → w.job.status ≠ "running") :
    jobInv (applyOp w op) := by
  cases op with
  | cancel t =>
    have hnr : w.job.status ≠ "running" := hc t rfl
    simp only [applyOp, applyCancel]
    split
    · exact hI
    · constructor
      · intro _
        exact ⟨rfl, rfl⟩
      · intro hw
        exact absurd (hI.2 hw).1 hnr
  | claim t =>
    simp only [applyOp]
    split
    · rename_i helig
      have hspec := eligibleAt_spec helig
      constructor
      · intro hca
        exact absurd hspec.2 hca
      · intro _
        exact ⟨rfl, hspec.2⟩
    · exact hI
  | exec t outcome =>
    simp only [applyOp]
    split
    · rename_i hw
      have hcnone := (hI.2 hw).2
      cases outcome with
      | ok v =>
        obtain ⟨eid, mpath, vpath⟩ := v
        constructor
        · intro hca
          exact absurd hcnone hca
        · intro hfalse
          exact Bool.noConfusion hfalse
      | error msg =>
        constructor
        · intro hca
          rw [applyFailure_canceled_at] at hca
          exact absurd hcnone hca
        · intro hfalse
          exact Bool.noConfusion hfalse
    · exact hI
  | retry t =>
    simp only [applyOp, applyRetry]
    split
    · rename_i hst
      constructor
      · intro hca
        exact absurd rfl hca
      · intro hw
        have hrun := (hI.2 hw).1
        rcases hst with h | h <;> rw [hrun] at h <;> exact absurd h (by decide)
    · exact hI

theorem jobInv_run (w : WorkerWorld) (ops : List JobOp) (hI : jobInv w)
    (hnc : noCancelWhileRunning w ops = true) : jobInv (runOps w ops) := by
  induction ops generalizing w with
  | nil => exact hI
  | cons op rest ih =>
    simp only [noCancelWhileRunning, Bool.and_eq_true] at hnc
    refine ih (applyOp w op) (jobInv_step w op hI ?_) hnc.2
    intro t hop
    subst hop
    exact of_decide_eq_true hnc.1

/-- Concrete world for the C4 and C5 scenarios: a fresh job with
`max_retries = 3` created at time 0. -/
def jobWorld : WorkerWorld := initWorld "T1" "full" "p" 3 "J1" 0

/-- The racy trace: claim, cancel while the job is running, then the
worker's success write lands. -/
def raceOps : List JobOp := [.claim 1, .cancel 2, .exec 3 (.ok ("E", "M", none))]

/-- C4: the invariant fails as claimed: cancel of a running job followed
by the worker's own success write leaves `canceled_at` set while the
status is `done`, not `canceled`. -/
theorem c4_cancel_counterexample :
    (runOps jobWorld raceOps).job.canceled_at = some 2 ∧
      (runOps jobWorld raceOps).job.status = "done" ∧
      (runOps jobWorld raceOps).job.status ≠ "canceled" := by
  decide

/-- C4 (amended): for every operation sequence on a freshly created job
in which no cancel is issued while the job is running, a non-null
`canceled_at` implies status `canceled` and a null `next_run_at`.  (If a
running job is canceled, the claim-holding worker's terminal write still
lands and breaks the invariant, see the counterexample.) -/
theorem c4_cancel_invariant (global_track_id mode payload_json : String)
    (max_retries : ℤ) (job_id : String) (t0 : ℚ) (ops : List JobOp)
    (hnc : noCancelWhileRunning
      (initWorld global_track_id mode payload_json max_retries job_id t0) ops = true)
    (hca : (runOps (initWorld global_track_id mode payload_json max_retries job_id t0)
      ops).job.canceled_at ≠ none) :
    (runOps (initWorld global_track_id mode payload_json max_retries job_id t0)
        ops).job.status = "canceled" ∧
      (runOps (initWorld global_track_id mode payload_json max_retries job_id t0)
        ops).job.next_run_at = none := by
  have hinit : jobInv (initWorld global_track_id mode payload_json max_retries job_id t0) :=
    ⟨fun h => absurd rfl h, fun h => Bool.noConfusion h⟩
  exact (jobInv_run _ ops hinit hnc).1 hca

/-- Trace for the C4 witness: cancel a pending job. -/
def pendingCancelOps : List JobOp := [.cancel 1]

/-- Witness for the amended C4 theorem on a concrete trace. -/
theorem c4_cancel_invariant_witness :
    noCancelWhileRunning jobWorld pendingCancelOps = true ∧
      ((runOps jobWorld pendingCancelOps).job.status = "canceled" ∧
        (runOps jobWorld pendingCancelOps).job.next_run_at = none) :=
  ⟨by decide,
    c4_cancel_invariant "T1" "full" "p" 3 "J1" 0 pendingCancelOps
      (by decide) (by decide)⟩

/-- C5: the worker's exception branch increments `retry_count`; while the
incremented count is at most `max_retries` the job returns to `pending`
with `next_run_at = now + min 300 (2 ^ (retry_count - 1))`, otherwise it
becomes `failed` with no scheduled run; in both cases `finished_at` and
`error_message` are stamped.  A fresh job with `max_retries = 3` failing
at times 10, 20, 30, 40 is rescheduled at 11, 22, 34 and then fails
permanently on the fourth failure. -/
theorem c5_failure_retry_backoff (j : ExportJob) (t : ℚ) (msg : String) :
    ((applyFailure j t msg).retry_count = j.retry_count + 1 ∧
      (j.retry_count + 1 ≤ j.max_retries →
        (applyFailure j t msg).status = "pending" ∧
        (applyFailure j t msg).next_run_at =
          some (t + min 300 ((2 : ℚ) ^ (j.retry_count + 1 - 1)))) ∧
      (¬ j.retry_count + 1 ≤ j.max_retries →
        (applyFailure j t msg).status = "failed" ∧
        (applyFailure j t msg).next_run_at = none) ∧
      (applyFailure j t msg).finished_at = some t ∧
      (applyFailure j t msg).error_message = some msg) ∧
    ((applyFailure jobWorld.job 10 "e1").next_run_at = some 11 ∧
      (applyFailure (applyFailure jobWorld.job 10 "e1") 20 "e2").next_run_at =
        some 22 ∧
      (applyFailure (applyFailure (applyFailure jobWorld.job 10 "e1") 20 "e2")
        30 "e3").next_run_at = some 34 ∧
      (applyFailure (applyFailure (applyFailure (applyFailure jobWorld.job
        10 "e1") 20 "e2") 30 "e3") 40 "e4").status = "failed" ∧
      (applyFailure (applyFailure (applyFailure (applyFailure jobWorld.job
        10 "e1") 20 "e2") 30 "e3") 40 "e4").next_run_at = none ∧
      (applyFailure (applyFailure (applyFailure (applyFailure jobWorld.job
        10 "e1") 20 "e2") 30 "e3") 40 "e4").retry_count = 4) := by
  constructor
  · refine ⟨?_, ?_, ?_, ?_, ?_⟩
    · simp only [applyFailure]
      split <;> rfl
    · intro h
      simp only [applyFailure]
      rw [if_pos h]
      exact ⟨rfl, rfl⟩
    · intro h
      simp only [applyFailure]
      rw [if_neg h]
      exact ⟨rfl, rfl⟩
    · simp only [applyFailure]
      split <;> rfl
    · simp only [applyFailure]
      split <;> rfl
  · norm_num [applyFailure, jobWorld, initWorld, newExportJob]

/-- Witness for the retry branch of the C5 theorem on a fresh job. -/
theorem c5_failure_retry_backoff_witness :
    jobWorld.job.retry_count + 1 ≤ jobWorld.job.max_retries ∧
      ((applyFailure jobWorld.job 5 "x").status = "pending" ∧
        (applyFailure jobWorld.job 5 "x").next_run_at =
          some (5 + min 300 ((2 : ℚ) ^ (jobWorld.job.retry_count + 1 - 1)))) :=
  ⟨by decide,
    (c5_failure_retry_backoff jobWorld.job 5 "x").1.2.1 (by decide)⟩

/-- C8: with dedupe set and exactly one live matching job in the store,
enqueueing returns that job unchanged and inserts no row; with dedupe
unset a new, distinct row is inserted. -/
theorem c8_create_dedupe (store : List ExportJob)
    (global_track_id mode payload_json : String) (max_retries : ℤ)
    (fresh_job_id : String) (now : ℚ) (j : ExportJob)
    (hmode : mode = "full" ∨ mode = "highlights") (hmr : 0 ≤ max_retries) :
    (store.filter (jobMatches global_track_id mode payload_json) = [j] →
      createExportJob store global_track_id mode payload_json max_retries
        true fresh_job_id now = .ok (j, store)) ∧
    (fresh_job_id ∉ store.map (fun k => k.job_id) →
      ∃ nj, createExportJob store global_track_id mode payload_json max_retries
          false fresh_job_id now = .ok (nj, store ++ [nj]) ∧
        nj.job_id = fresh_job_id ∧ ∀ k ∈ store, k.job_id ≠ nj.job_id) := by
  have hv1 : ¬(mode ≠ "full" ∧ mode ≠ "highlights") := by
    rcases hmode with h | h <;> simp [h]
  have hv2 : ¬ max_retries < 0 := not_lt.mpr hmr
  constructor
  · intro hfilter
    simp only [createExportJob]
    rw [if_neg hv1, if_neg hv2, if_true, hfilter]
    rfl
  · intro hfresh
    refine ⟨newExportJob global_track_id mode payload_json max_retries
      fresh_job_id now, ?_, rfl, ?_⟩
    · simp only [createExportJob]
      rw [if_neg hv1, if_neg hv2]
      rfl
    · intro k hk heq
      exact hfresh (List.mem_map.mpr ⟨k, hk, heq⟩)

/-- A live pending job used by the C8 and C9 witnesses. -/
def eligJob : ExportJob := newExportJob "T1" "full" "req" 3 "J1" 0

/-- A terminal job sharing the store with `eligJob`. -/
def doneJob : ExportJob :=
  { newExportJob "T2" "full" "req" 3 "J2" 0 with status := "done" }

/-- Witness for the dedupe branch of the C8 theorem. -/
theorem c8_create_dedupe_witness :
    ([eligJob].filter (jobMatches "T1" "full" "req") = [eligJob]) ∧
      createExportJob [eligJob] "T1" "full" "req" 3 true "J2" 5 =
        .ok (eligJob, [eligJob]) :=
  ⟨by decide,
    (c8_create_dedupe [eligJob] "T1" "full" "req" 3 "J2" 5 eligJob
      (Or.inl rfl) (by decide)).1 (by decide)⟩

theorem findOldestIdx_none (now : ℚ) :
    ∀ l : List ExportJob, l.filter (eligibleAt now) = [] →
      findOldestIdx now l = none := by
  intro l
  induction l with
  | nil => intro _; rfl
  | cons a rest ih =>
    intro h
    rw [List.filter_cons] at h
    split at h
    · exact absurd h (List.cons_ne_nil _ _)
    · rename_i ha
      simp only [findOldestIdx, ih h]
      rw [if_neg ha]

theorem findOldestIdx_unique (now : ℚ) :
    ∀ (l : List ExportJob) (j : ExportJob), l.filter (eligibleAt now) = [j] →
      ∃ i, findOldestIdx now l = some (i, j) ∧ l.get? i = some j := by
  intro l
  induction l with
  | nil => intro j h; simp at h
  | cons a rest ih =>
    intro j h
    rw [List.filter_cons] at h
    split at h
    · rename_i ha
      injection h with h1 h2
      subst h1
      refine ⟨0, ?_, rfl⟩
      simp only [findOldestIdx, findOldestIdx_none now rest h2]
      rw [if_pos ha]
    · rename_i ha
      obtain ⟨i, hfind, hget⟩ := ih j h
      refine ⟨i + 1, ?_, hget⟩
      simp only [findOldestIdx, hfind]
      rw [if_neg ha]

/-- A freshly claimed job is no longer eligible. -/
theorem claimedJob_not_eligible (j : ExportJob) (now : ℚ) :
    eligibleAt now (claimedJob j now) = false := rfl

theorem filter_set_of_unique (p : ExportJob → Bool) :
    ∀ (l : List ExportJob) (i : ℕ) (j x : ExportJob),
      l.filter p = [j] → l.get? i = some j → p x = false →
      (l.set i x).filter p = [] := by
  intro l
  induction l with
  | nil =>
    intro i j x _ hg _
    cases hg
  | cons a rest ih =>
    intro i j x h hg hpx
    cases i with
    | zero =>
      injection hg with haj
      subst haj
      rw [List.set_cons_zero, List.filter_cons, hpx]
      rw [List.filter_cons] at h
      split at h
      · rename_i hpa
        injection h with h1 h2
      · rename_i hpa
        exfalso
        have hmem : a ∈ List.filter p rest := h ▸ List.mem_singleton_self a
        exact hpa (List.of_mem_filter hmem)
    | succ n =>
      have hg' : rest.get? n = some j := hg
      rw [List.set_cons_succ, List.filter_cons]
      rw [List.filter_cons] at h
      split at h
      · rename_i hpa
        injection h with h1 h2
        subst h1
        exfalso
        have hmem : a ∈ rest := List.get?_mem hg'
        exact (List.filter_eq_nil_iff.mp h2 a hmem) hpa
      · rename_i hpa
        rw [if_neg hpa]
        exact ih n j x h hg' hpx

theorem claimNextJob_none (store : List ExportJob) (now : ℚ)
    (h : store.filter (eligibleAt now) = []) :
    claimNextJob store now = (none, store) := by
  simp [claimNextJob, findOldestIdx_none now store h]

theorem claimAttempts_none (now : ℚ) :
    ∀ (n : ℕ) (store : List ExportJob), store.filter (eligibleAt now) = [] →
      claimAttempts n store now = (0, store) := by
  intro n
  induction n with
  | zero => intro store _; rfl
  | succ n ih =>
    intro store h
    simp only [claimAttempts, claimNextJob_none store now h, ih store h]
    rfl

/-- C9: with exactly one eligible pending job in the store, any number of
serialized claim attempts transition exactly that job to running (stamping
`started_at`, clearing `error_message`), every further attempt observes no
eligible job, and the claimed job is the unique (hence oldest) eligible
one. -/
theorem c9_claim_exclusive (store : List ExportJob) (now : ℚ)
    (j : ExportJob) (n : ℕ)
    (h : store.filter (eligibleAt now) = [j]) :
    (claimNextJob store now).1 = some (claimedJob j now) ∧
      (claimAttempts (n + 1) store now).1 = 1 ∧
      (∀ k ∈ store, eligibleAt now k = true → k = j) := by
  obtain ⟨i, hfind, hget⟩ := findOldestIdx_unique now store j h
  have hfst : (claimNextJob store now).1 = some (claimedJob j now) := by
    simp [claimNextJob, hfind]
  have hsnd : (claimNextJob store now).2 = store.set i (claimedJob j now) := by
    simp [claimNextJob, hfind]
  have hempty : (store.set i (claimedJob j now)).filter (eligibleAt now) = [] :=
    filter_set_of_unique (eligibleAt now) store i j (claimedJob j now) h hget
      (claimedJob_not_eligible j now)
  refine ⟨hfst, ?_, ?_⟩
  · simp only [claimAttempts, hfst, hsnd, claimAttempts_none now n _ hempty,
      Option.isSome_some, if_true]
  · intro k hk he
    have hmem : k ∈ store.filter (eligibleAt now) := List.mem_filter.mpr ⟨hk, he⟩
    rw [h] at hmem
    exact List.mem_singleton.mp hmem

/-- Witness for the C9 theorem on a concrete two-job store. -/
theorem c9_claim_exclusive_witness :
    ([doneJob, eligJob].filter (eligibleAt 5) = [eligJob]) ∧
      ((claimNextJob [doneJob, eligJob] 5).1 = some (claimedJob eligJob 5) ∧
        (claimAttempts (2 + 1) [doneJob, eligJob] 5).1 = 1 ∧
        (∀ k ∈ [doneJob, eligJob], eligibleAt 5 k = true → k = eligJob)) :=
  ⟨by decide, c9_claim_exclusive [doneJob, eligJob] 5 eligJob 2 (by decide)⟩

theorem applyFailure_result_fields (j : ExportJob) (t : ℚ) (msg : String) :
    (applyFailure j t msg).export_id = j.export_id ∧
      (applyFailure j t msg).manifest_path = j.manifest_path ∧
      (applyFailure j t msg).video_path = j.video_path := by
  simp only [applyFailure]
  split <;> exact ⟨rfl, rfl, rfl⟩

/-- The three success-only result columns of a job row. -/
def resultFieldsNone (w : WorkerWorld) : Prop :=
  w.job.export_id = none ∧ w.job.manifest_path = none ∧ w.job.video_path = none

theorem resultFieldsNone_step (w : WorkerWorld) (op : JobOp)
    (h : resultFieldsNone w) (hop : isSuccessExec op = false) :
    resultFieldsNone (applyOp w op) := by
  cases op with
  | cancel t =>
    simp only [applyOp, applyCancel]
    split
    · exact h
    · exact h
  | claim t =>
    simp only [applyOp]
    split
    · exact h
    · exact h
  | exec t outcome =>
    cases outcome with
    | ok v => simp [isSuccessExec] at hop
    | error msg =>
      simp only [applyOp]
      split
      · obtain ⟨h1, h2, h3⟩ := applyFailure_result_fields w.job t msg
        exact ⟨h1.trans h.1, h2.trans h.2.1, h3.trans h.2.2⟩
      · exact h
  | retry t =>
    simp only [applyOp, applyRetry]
    split
    · exact h
    · exact h

/-- C10: a failing execution write never touches the result columns: the
worker's failure branch leaves `export_id`, `manifest_path` and
`video_path` exactly as stored; along any trace without a successful
execution they stay null; and a run whose render step fails after the
manifest was already written still surfaces as an error carrying no
result fields. -/
theorem c10_failure_keeps_result_fields :
    (∀ (w : WorkerWorld) (t : ℚ) (msg : String),
      (applyOp w (.exec t (.error msg))).job.export_id = w.job.export_id ∧
        (applyOp w (.exec t (.error msg))).job.manifest_path =
          w.job.manifest_path ∧
        (applyOp w (.exec t (.error msg))).job.video_path = w.job.video_path) ∧
    (∀ (global_track_id mode payload_json : String) (max_retries : ℤ)
        (job_id : String) (t0 : ℚ) (ops : List JobOp),
      ops.all (fun op => !(isSuccessExec op)) = true →
      (runOps (initWorld global_track_id mode payload_json max_retries job_id t0)
          ops).job.export_id = none ∧
        (runOps (initWorld global_track_id mode payload_json max_retries job_id t0)
          ops).job.manifest_path = none ∧
        (runOps (initWorld global_track_id mode payload_json max_retries job_id t0)
          ops).job.video_path = none) ∧
    (∀ (excerpts : List ExportExcerpt) (target_seconds per_clip_seconds : ℚ)
        (export_id manifest_path e : String),
      excerpts ≠ [] →
      processOne (.ok excerpts) "full" target_seconds per_clip_seconds
        false false true export_id manifest_path (.error e) = .error e) := by
  refine ⟨?_, ?_, ?_⟩
  · intro w t msg
    simp only [applyOp]
    split
    · exact applyFailure_result_fields w.job t msg
    · exact ⟨rfl, rfl, rfl⟩
  · intro global_track_id mode payload_json max_retries job_id t0 ops hall
    suffices haux : ∀ (ops : List JobOp) (w : WorkerWorld),
        resultFieldsNone w → ops.all (fun op => !(isSuccessExec op)) = true →
        resultFieldsNone (runOps w ops) by
      exact haux ops _ ⟨rfl, rfl, rfl⟩ hall
    intro ops
    induction ops with
    | nil => intro w h _; exact h
    | cons op rest ih =>
      intro w h hall
      simp only [List.all_cons, Bool.and_eq_true, Bool.not_eq_true'] at hall
      exact ih (applyOp w op) (resultFieldsNone_step w op h hall.1) (by
        simp only [List.all_eq_true] at hall ⊢
        intro x hx
        exact hall.2 x hx)
  · intro excerpts target_seconds per_clip_seconds export_id manifest_path e hne
    simp [processOne, hne, show ("full" : String) ≠ "highlights" from by decide]

/-- Witness for the render-failure clause of the C10 theorem. -/
theorem c10_failure_keeps_result_fields_witness :
    (([posDurExcerpt] : List ExportExcerpt) ≠ []) ∧
      processOne (.ok [posDurExcerpt]) "full" 30 4 false false true
        "E" "M" (.error "render failed") = .error "render failed" :=
  ⟨by simp,
    c10_failure_keeps_result_fields.2.2 [posDurExcerpt] 30 4 "E" "M"
      "render failed" (by simp)⟩

/-- Mirror of the `Association` row in `models.py`. -/
structure Association where
  association_id : String
  global_track_id : String
  track_id : String
  animal_id : String
  confidence : ℚ
  created_at : ℚ
deriving DecidableEq, Repr

/-- Mirror of the `Track` row in `models.py`. -/
structure Track where
  track_id : String
  camera_id : String
  start_ts : ℚ
  end_ts : Option ℚ
  quality_score : Option ℚ
deriving DecidableEq, Repr

/-- Mirror of the `MediaSegment` row in `models.py`. -/
structure MediaSegment where
  segment_id : String
  camera_id : Option String
  start_ts : ℚ
  end_ts : Option ℚ
  path : String
  codec : Option String
  avg_bitrate : Option ℚ
deriving DecidableEq, Repr

/-- The database snapshot read by `build_export_plan`. -/
structure Database where
  associations : List Association
  tracks : List Track
  media_segments : List MediaSegment
deriving Repr

def segStartLE (a b : MediaSegment) : Prop :=
  a.start_ts ≤ b.start_ts

instance : DecidableRel segStartLE :=
  fun a b => inferInstanceAs (Decidable (a.start_ts ≤ b.start_ts))

instance : IsTotal MediaSegment segStartLE :=
  ⟨fun a b => le_total a.start_ts b.start_ts⟩

instance : IsTrans MediaSegment segStartLE :=
  ⟨fun _ _ _ hab hbc => le_trans hab hbc⟩

/-- The `summary` dict returned by `build_export_plan`. -/
structure PlanSummary where
  global_track_id : String
  padding_seconds : ℚ
  merge_gap_seconds : ℚ
  min_duration_seconds : ℚ
  association_count : ℕ
  excerpt_count : ℕ
deriving DecidableEq, Repr

/-- Mirror of `_overlap` in `export_service.py`. -/
def overlapRange (a_start a_end b_start b_end : ℚ) : Option (ℚ × ℚ) :=
  let lo := max a_start b_start
  let hi := min a_end b_end
  if hi ≤ lo then none else some (lo, hi)

/-- The media-segment query of `build_export_plan`: same camera, non-null
end, inclusive overlap with the window, ordered by segment start. -/
def segmentsFor (db : Database) (camera_id : String)
    (window_start window_end : ℚ) : List MediaSegment :=
  List.insertionSort segStartLE
    (db.media_segments.filter (fun s =>
      s.camera_id == some camera_id &&
        (match s.end_ts with
         | none => false
         | some e => decide (s.start_ts ≤ window_end) &&
             decide (window_start ≤ e))))

/-- Mirror of `build_export_plan` in `export_service.py`.  The session
queries become reads of the `Database` snapshot; `ValueError` becomes
`Except.error`. -/
def buildExportPlan (db : Database) (global_track_id : String)
    (padding_seconds merge_gap_seconds min_duration_seconds : ℚ) :
    Except String (List ExportExcerpt × PlanSummary) :=
  let associations :=
    db.associations.filter (fun a => a.global_track_id == global_track_id)
  match associations with
  | [] => .error "No associations found for global_track_id"
  | _ :: _ =>
    let pad := max padding_seconds 0
    let excerpts := associations.foldl
      (fun acc assoc =>
        match db.tracks.find? (fun t => t.track_id == assoc.track_id) with
        | none => acc
        | some track =>
          match track.end_ts with
          | none => acc
          | some track_end =>
            let window_start := track.start_ts - pad
            let window_end := track_end + pad
            let segments := segmentsFor db track.camera_id window_start window_end
            segments.foldl
              (fun acc2 segment =>
                match segment.end_ts with
                | none => acc2
                | some segment_end =>
                  match overlapRange window_start window_end
                      segment.start_ts segment_end with
                  | none => acc2
                  | some (clip_start, clip_end) =>
                    let duration := clip_end - clip_start
                    if duration ≤ 0 then acc2
                    else
                      acc2 ++
                        [{ camera_id := track.camera_id
                           segment_id := segment.segment_id
                           segment_path := segment.path
                           clip_start_ts := clip_start
                           clip_end_ts := clip_end
                           offset_start_sec := max (clip_start - segment.start_ts) 0
                           duration_sec := duration }]) acc) []
    let merged := mergeAndFilterExcerpts excerpts merge_gap_seconds
      min_duration_seconds
    .ok (merged,
      { global_track_id := global_track_id
        padding_seconds := max padding_seconds 0
        merge_gap_seconds := max merge_gap_seconds 0
        min_duration_seconds := max min_duration_seconds 0
        association_count := associations.length
        excerpt_count := merged.length })

/-- C6: planning raises exactly when the track identity has no
associations; any snapshot with at least one association for it planning
returns normally. -/
theorem c6_plan_not_found_iff (db : Database) (global_track_id : String)
    (padding_seconds merge_gap_seconds min_duration_seconds : ℚ) :
    (∃ e, buildExportPlan db global_track_id padding_seconds merge_gap_seconds
        min_duration_seconds = .error e) ↔
      db.associations.filter (fun a => a.global_track_id == global_track_id)
        = [] := by
  cases hA : db.associations.filter (fun a => a.global_track_id == global_track_id) with
  | nil =>
    constructor
    · intro _; rfl
    · intro _
      refine ⟨"No associations found for global_track_id", ?_⟩
      simp only [buildExportPlan, hA]
  | cons a rest =>
    constructor
    · intro ⟨e, he⟩
      simp only [buildExportPlan, hA] at he
      exact Except.noConfusion he
    · intro h
      exact absurd h (List.cons_ne_nil a rest)

/-- Empty snapshot used by the C6 witness. -/
def emptyDb : Database := ⟨[], [], []⟩

/-- Witness for the C6 theorem on an empty snapshot. -/
theorem c6_plan_not_found_iff_witness :
    (emptyDb.associations.filter (fun a => a.global_track_id == "T1") = []) ∧
      ∃ e, buildExportPlan emptyDb "T1" 5 (1/5) (3/10) = .error e :=
  ⟨rfl, (c6_plan_not_found_iff emptyDb "T1" 5 (1/5) (3/10)).mpr rfl⟩

/-- The C7 snapshot: one association of `T1` to track `TR1` on camera
`C1` spanning 36000..36020 (10:00:00..10:00:20 as epoch seconds), and one
media segment on `C1` spanning 35970..36040 at path `P`. -/
def dbC7 : Database :=
  { associations := [⟨"A1", "T1", "TR1", "AN1", 1, 0⟩]
    tracks := [⟨"TR1", "C1", 36000, some 36020, none⟩]
    media_segments := [⟨"S1", some "C1", 35970, some 36040, "P", none, none⟩] }

/-- C7: planning `T1` with 5 seconds padding and the default merge
parameters produces the padded window 35995..36025 intersected with the
segment: one excerpt on `C1` at path `P` with offset 25 and duration
30. -/
theorem c7_end_to_end :
    buildExportPlan dbC7 "T1" 5 (1/5) (3/10) =
      .ok ([{ camera_id := "C1", segment_id := "S1", segment_path := "P",
              clip_start_ts := 35995, clip_end_ts := 36025,
              offset_start_sec := 25, duration_sec := 30 }],
        { global_track_id := "T1", padding_seconds := 5,
          merge_gap_seconds := 1/5, min_duration_seconds := 3/10,
          association_count := 1, excerpt_count := 1 }) := by
  norm_num [buildExportPlan, dbC7, segmentsFor, overlapRange,
    mergeAndFilterExcerpts, mergeLoop, List.insertionSort, List.orderedInsert,
    startLE, segStartLE, List.filter_cons, Bool.and_eq_true, decide_eq_true_eq,
    show ((5 : ℚ) ⊔ 0) = 5 from max_eq_left (by norm_num),
    show ((1/5 : ℚ) ⊔ 0) = 1/5 from max_eq_left (by norm_num),
    show ((3/10 : ℚ) ⊔ 0) = 3/10 from max_eq_left (by norm_num)]

end PawLuxe
